import Mathlib

/-!
Shallow embedding of `src/main.py` (an electricity-balance monitor plugin):
the balance client with its login-retry policy, the balance-response parser,
the notify-destination list handling, the monitor loop body, and the
process-wide singleton coordination of the monitor task.  Python machine
details are modelled explicitly: string truthiness, `in` substring tests,
`str.strip`/`str.split`, and `dict.get` defaults (absent keys as `Option`).
-/

namespace ElecMon

/-! ### Python string primitives -/

/-- `startsWithChars s pat`: `pat` is a leading run of `s` (character lists). -/
def startsWithChars : List Char → List Char → Bool
  | _, [] => true
  | [], _ :: _ => false
  | c :: cs, p :: ps => c == p && startsWithChars cs ps

/-- `containsSubChars pat s`: `pat` occurs contiguously somewhere in `s`,
Python's `pat in s`. -/
def containsSubChars (pat : List Char) : List Char → Bool
  | [] => startsWithChars [] pat
  | c :: rest => startsWithChars (c :: rest) pat || containsSubChars pat rest

/-- Python `pat in message` on strings. -/
def pyInStr (pat message : String) : Bool :=
  containsSubChars pat.data message.data

/-- ASCII lowercase folding of a string (`Char.toLower` maps only `A`-`Z`). -/
def lowerAscii (s : String) : String :=
  String.mk (s.data.map Char.toLower)

/-- The characters Python's `str.strip()` removes (ASCII whitespace). -/
def pySpaceChar (c : Char) : Bool :=
  c == ' ' || c == '\t' || c == '\n' || c == '\x0d' || c == '\x0b' || c == '\x0c'

/-- Strip leading and trailing whitespace from a character list. -/
def stripChars (l : List Char) : List Char :=
  ((l.dropWhile pySpaceChar).reverse.dropWhile pySpaceChar).reverse

/-- Python `s.strip()`. -/
def pyStrip (s : String) : String :=
  String.mk (stripChars s.data)

/-- Split a character list on `','`, Python `s.split(",")`:
`[] ↦ [[]]`, each comma starts a new (possibly empty) piece. -/
def splitCommaChars : List Char → List (List Char)
  | [] => [[]]
  | c :: rest =>
    if c == ',' then [] :: splitCommaChars rest
    else
      match splitCommaChars rest with
      | [] => [[c]]
      | h :: t => (c :: h) :: t

/-- Python `s.split(",")`. -/
def pySplitComma (s : String) : List String :=
  (splitCommaChars s.data).map String.mk

/-! ### `_looks_like_login_expired` (src/main.py lines 149-160) -/

/-- The fixed list of session-expiry phrases of `_looks_like_login_expired`. -/
def expiryKeywords : List String :=
  ["登录过期", "登录已过期", "请登录", "请先登录", "未登录", "账号过期",
   "token过期", "Token过期"]

/-- `_looks_like_login_expired(message)`: `any(keyword in message ...)`,
a case-sensitive substring test. -/
def looks_like_login_expired (message : String) : Bool :=
  expiryKeywords.any (fun keyword => pyInStr keyword message)

/-- Modelled from the spec's words for comparison ("case-insensitive substring
match against a fixed list of expiry phrases"): the same test after ASCII
case folding of both sides.  This is the spec's reading, not the code's. -/
def specCaseInsensitiveExpired (message : String) : Bool :=
  expiryKeywords.any (fun keyword =>
    pyInStr (lowerAscii keyword) (lowerAscii message))

/-! ### The balance response and `_parse_balance` (src/main.py lines 124-146)

JSON numbers are modelled as `Int` codes and `Rat` amounts; a field that the
code reads with `dict.get` and that may be absent is an `Option`. -/

structure Device where
  DeviceType : Option Int
  DeviceName : Option String
  DeviceBalance : Option Rat
  DevicePrice : Option Rat
  UpdateTime : Option String
  IsOnline : Option Int
  SwitchStatus : Option Int
deriving DecidableEq

structure BalanceData where
  RoomName : Option String
  DevicesList : List Device
deriving DecidableEq

structure BalanceResp where
  Tag : Option Int
  Message : Option String
  Data : Option BalanceData
deriving DecidableEq

/-- The dict `_parse_balance` returns on success. -/
structure BalanceSnapshot where
  room_name : String
  device_name : Option String
  balance : Option Rat
  price : Option Rat
  update_time : Option String
  is_online : Bool
  switch_status : Bool
deriving DecidableEq

/-- The three `RuntimeError`s `_parse_balance` can raise. -/
inductive ParseErr where
  | apiError (msg : Option String)
  | noDevicesBound
  | noMeterDevice
deriving DecidableEq

/-- Python `f"{v}"` over an optional string (`None` prints as `"None"`). -/
def pyFormatOptStr : Option String → String
  | none => "None"
  | some s => s

/-- `str(exc)` of each `_parse_balance` error. -/
def ParseErr.message : ParseErr → String
  | .apiError m => "api error: " ++ pyFormatOptStr m
  | .noDevicesBound => "no bound devices found"
  | .noMeterDevice => "no electricity meter device found"

/-- `data.get("Data", {}).get("DevicesList", [])`. -/
def devicesListOf (data : BalanceResp) : List Device :=
  (data.Data.map BalanceData.DevicesList).getD []

/-- `data.get("Data", {}).get("RoomName", "unknown")`. -/
def roomNameOf (data : BalanceResp) : String :=
  (data.Data.bind BalanceData.RoomName).getD "unknown"

/-- The `for device in devices_list` scan: first device with `DeviceType == 1`. -/
def firstMeterDevice : List Device → Option Device
  | [] => none
  | d :: rest => if d.DeviceType == some 1 then some d else firstMeterDevice rest

/-- The snapshot dict built from the matched device. -/
def snapshotOf (data : BalanceResp) (device : Device) : BalanceSnapshot :=
  { room_name := roomNameOf data
    device_name := device.DeviceName
    balance := device.DeviceBalance
    price := device.DevicePrice
    update_time := device.UpdateTime
    is_online := device.IsOnline == some 1
    switch_status := device.SwitchStatus == some 1 }

/-- `ElectricityClient._parse_balance`. -/
def parse_balance (data : BalanceResp) : Except ParseErr BalanceSnapshot :=
  if data.Tag != some 1 then
    .error (.apiError data.Message)
  else if (devicesListOf data).isEmpty then
    .error .noDevicesBound
  else
    match firstMeterDevice (devicesListOf data) with
    | some device => .ok (snapshotOf data device)
    | none => .error .noMeterDevice

/-! ### `ElectricityClient.get_balance` (src/main.py lines 82-122)

The HTTP world is an oracle: the outcome of the n-th login and of the n-th
balance request.  `str` fields of the client are `Option String`; Python
truthiness (`not self.token`, `self.account and self.password`) treats both
`None` and `""` as false. -/

/-- Python truthiness of an optional string. -/
def pyTruthy : Option String → Bool
  | none => false
  | some s => !s.isEmpty

/-- The client's mutable credential fields. -/
structure ClientState where
  token : Option String
  account : Option String
  password : Option String
deriving DecidableEq

/-- Outcomes of the external HTTP calls: the n-th login either raises
(`error` carries `str(exc)`) or yields the `AppUserToken` cookie value; the
n-th balance request either raises or yields the response JSON. -/
structure HttpEnv where
  login : Nat → Except String String
  fetch : Nat → Except String BalanceResp

/-- How many login calls and balance-request calls a `get_balance` run made. -/
structure CallTrace where
  logins : Nat
  fetches : Nat
deriving DecidableEq

/-- `login_and_get_token`: raises on missing credentials, otherwise performs
the n-th login; on success stores the cookie value as the new token
(the code also persists it to the config, not modelled here). -/
def login_and_get_token (env : HttpEnv) (st : ClientState) (tr : CallTrace) :
    Except String ClientState × CallTrace :=
  if !pyTruthy st.account || !pyTruthy st.password then
    (.error "missing account/password for token refresh",
      { tr with logins := tr.logins + 1 })
  else
    match env.login tr.logins with
    | .error e => (.error e, { tr with logins := tr.logins + 1 })
    | .ok tok =>
      (.ok { st with token := some tok }, { tr with logins := tr.logins + 1 })

/-- `_request_balance`: raises if no token is held, otherwise performs the
n-th balance request. -/
def request_balance (env : HttpEnv) (st : ClientState) (tr : CallTrace) :
    Except String BalanceResp × CallTrace :=
  if !pyTruthy st.token then
    (.error "missing electricity_token", { tr with fetches := tr.fetches + 1 })
  else
    (env.fetch tr.fetches, { tr with fetches := tr.fetches + 1 })

/-- `self._parse_balance(await self._request_balance())`, errors rendered as
`str(exc)` so the caller can classify them. -/
def fetch_and_parse (env : HttpEnv) (st : ClientState) (tr : CallTrace) :
    Except String BalanceSnapshot × CallTrace :=
  match request_balance env st tr with
  | (.error e, tr1) => (.error e, tr1)
  | (.ok data, tr1) =>
    match parse_balance data with
    | .error pe => (.error pe.message, tr1)
    | .ok snap => (.ok snap, tr1)

/-- The `try` block of `get_balance`: optional initial login (token absent,
credentials present, `auto_retry`), then one fetch+parse. -/
def get_balance_try (env : HttpEnv) (st : ClientState) (auto_retry : Bool) :
    Except String BalanceSnapshot × CallTrace × ClientState :=
  if auto_retry && !pyTruthy st.token && pyTruthy st.account && pyTruthy st.password then
    match login_and_get_token env st ⟨0, 0⟩ with
    | (.error e, tr1) => (.error e, tr1, st)
    | (.ok st1, tr1) =>
      match fetch_and_parse env st1 tr1 with
      | (r, tr2) => (r, tr2, st1)
  else
    match fetch_and_parse env st ⟨0, 0⟩ with
    | (r, tr1) => (r, tr1, st)

/-- `ElectricityClient.get_balance`: the `try` block, and on an error that
matches the expiry signature (with `auto_retry` and credentials) exactly one
re-login followed by one retried fetch+parse, whose outcome is returned. -/
def get_balance (env : HttpEnv) (st : ClientState) (auto_retry : Bool) :
    Except String BalanceSnapshot × CallTrace × ClientState :=
  match get_balance_try env st auto_retry with
  | (.ok snap, tr, st1) => (.ok snap, tr, st1)
  | (.error e, tr, st1) =>
    if auto_retry && pyTruthy st1.account && pyTruthy st1.password
        && looks_like_login_expired e then
      match login_and_get_token env st1 tr with
      | (.error e2, tr2) => (.error e2, tr2, st1)
      | (.ok st2, tr2) =>
        match fetch_and_parse env st2 tr2 with
        | (r, tr3) => (r, tr3, st2)
    else
      (.error e, tr, st1)

/-! ### `_normalize_list` and `_dedupe_list` (src/main.py lines 163-188) -/

/-- A value the config can hold under `notify_origins`: `None`, a list, a
string, or anything else (number, dict, ...). -/
inductive ConfigVal where
  | pynone
  | str (s : String)
  | list (l : List String)
  | other
deriving DecidableEq

/-- `[item.strip() for item in value.split(",") if item.strip()]`. -/
def commaSplitClean (s : String) : List String :=
  (pySplitComma s).filterMap fun item =>
    if pyStrip item = "" then none else some (pyStrip item)

/-- `_normalize_list`, with `json.loads` abstracted as `jloads`:
`jloads s = some l` stands for "`json.loads(s)` succeeded and gave a list";
`none` covers both a `JSONDecodeError` and a non-list JSON value. -/
def normalize_list (jloads : String → Option (List String)) : ConfigVal → List String
  | .pynone => []
  | .list l => l
  | .str s =>
    match jloads s with
    | some parsed => parsed
    | none => if pyStrip s ≠ "" then commaSplitClean s else []
  | .other => []

/-- The loop of `_dedupe_list`: `seen` is the membership set built so far. -/
def dedupeAux (seen : List String) : List String → List String
  | [] => []
  | item :: rest =>
    if item ∈ seen then dedupeAux seen rest
    else item :: dedupeAux (item :: seen) rest

/-- `_dedupe_list`. -/
def dedupe_list (items : List String) : List String :=
  dedupeAux [] items

/-- The `subscribe` command's effect on the stored list: early return when
already present, else append and store the deduplicated list. -/
def subscribeOp (origin : String) (origins : List String) : List String :=
  if origin ∈ origins then origins
  else dedupe_list (origins ++ [origin])

/-- The `unsubscribe` command's effect on the stored list: early return when
absent, else `list.remove` (first occurrence) and store deduplicated. -/
def unsubscribeOp (origin : String) (origins : List String) : List String :=
  if origin ∈ origins then dedupe_list (origins.erase origin)
  else origins

/-! ### One iteration of `_monitor_loop` (src/main.py lines 292-343)

Wall-clock seconds and balances are `Rat`.  `now` is the single
`time.time()` sample the iteration takes (line 301), before any fetch.
The balance fetch's outcome is an oracle argument (its internals are
`get_balance` above).  Config cells that the loop reads are modelled with
their effective types; an absent cell is `none`/a default. -/

/-- The `check_interval_minutes` cell: absent, a number, or a value
`int()` rejects. -/
inductive IntervalCfg where
  | absent
  | num (n : Int)
  | bad
deriving DecidableEq

/-- Lines 294-298: default 60 when absent, `max(1, int(v))`, 60 again when
`int()` raises. -/
def effectiveIntervalMinutes : IntervalCfg → Int
  | .absent => 60
  | .num n => max 1 n
  | .bad => 60

/-- The persisted/config state one loop iteration reads. -/
structure MonState where
  interval : IntervalCfg
  auto_check : Bool
  threshold : Option Rat
  last_balance : Option Rat
  last_check_ts : Option Rat
  notify_origins : List String
deriving DecidableEq

/-- `interval_seconds` of the iteration. -/
def intervalSecondsOf (st : MonState) : Rat :=
  ((effectiveIntervalMinutes st.interval : Int) : Rat) * 60

/-- What one execution of the `while` body did: the remaining-wait sleep (and
`continue`), the clock-skew clearing, whether a fetch was attempted, which
notifications fired, and the persisted values at the end of the iteration. -/
structure IterResult where
  preSleep : Option Rat
  continued : Bool
  clearedTs : Bool
  checked : Bool
  lowFired : Bool
  rechargeFired : Bool
  failNotified : Bool
  last_check_ts : Option Rat
  last_balance : Option Rat
  endSleep : Option Rat
deriving DecidableEq

/-- Lines 313-343: the check (guarded by `auto_check` and a non-empty origin
list) and the unconditional trailing sleep.  `cleared` records whether line
310 just cleared the persisted timestamp.  `float(info.get("balance", 0))`
raises when the snapshot's balance is `None`; that lands in the `except`
branch like a fetch error. -/
def monitorCheckPhase (st : MonState) (now : Rat)
    (fetch : Except String BalanceSnapshot) (cleared : Bool) : IterResult :=
  let ts0 : Option Rat := if cleared then none else st.last_check_ts
  let sleepEnd : Option Rat := some (intervalSecondsOf st)
  if st.auto_check && !st.notify_origins.isEmpty then
    match fetch with
    | .error _ =>
      { preSleep := none
        continued := false
        clearedTs := cleared
        checked := true
        lowFired := false
        rechargeFired := false
        failNotified := true
        last_check_ts := ts0
        last_balance := st.last_balance
        endSleep := sleepEnd }
    | .ok info =>
      match info.balance with
      | none =>
        { preSleep := none
          continued := false
          clearedTs := cleared
          checked := true
          lowFired := false
          rechargeFired := false
          failNotified := true
          last_check_ts := ts0
          last_balance := st.last_balance
          endSleep := sleepEnd }
      | some balance =>
        { preSleep := none
          continued := false
          clearedTs := cleared
          checked := true
          lowFired := decide (balance < st.threshold.getD 30)
          rechargeFired := (match st.last_balance with
            | some lb => decide (lb < balance)
            | none => false)
          failNotified := false
          last_check_ts := some now
          last_balance := some balance
          endSleep := sleepEnd }
  else
    { preSleep := none
      continued := false
      clearedTs := cleared
      checked := false
      lowFired := false
      rechargeFired := false
      failNotified := false
      last_check_ts := ts0
      last_balance := st.last_balance
      endSleep := sleepEnd }

/-- One full execution of the `while` body, lines 293-343. -/
def monitorIter (st : MonState) (now : Rat)
    (fetch : Except String BalanceSnapshot) : IterResult :=
  match st.last_check_ts with
  | some t =>
    if t ≤ now then
      if now - t < intervalSecondsOf st then
        { preSleep := some (intervalSecondsOf st - (now - t))
          continued := true
          clearedTs := false
          checked := false
          lowFired := false
          rechargeFired := false
          failNotified := false
          last_check_ts := st.last_check_ts
          last_balance := st.last_balance
          endSleep := none }
      else monitorCheckPhase st now fetch false
    else monitorCheckPhase st now fetch true
  | none => monitorCheckPhase st now fetch false

/-! ### The singleton coordinator (src/main.py lines 13-14, 229-249, 264-290)

The process-wide registry `_GLOBAL_MONITOR_TASK` / `_GLOBAL_MONITOR_OWNER`,
instances and their loop tasks, as a transition system over the instance
lifecycle events: plugin construction (`__init__`, which takes over any
registered unfinished task and, with `auto_check`, spawns and registers its
own), plugin unload (`on_unload`), and the event loop completing a task.
Tasks and instances carry `Nat` identities; `is`-comparison of task objects
is identity of these ids. -/

structure InstData where
  stopped : Bool
  task : Option Nat
deriving DecidableEq

structure PState where
  insts : List InstData
  nextTask : Nat
  cancelledT : List Nat
  doneT : List Nat
  regTask : Option Nat
  regOwner : Option Nat
deriving DecidableEq

def initPState : PState :=
  { insts := []
    nextTask := 0
    cancelledT := []
    doneT := []
    regTask := none
    regOwner := none }

/-- `self._monitor_task` of instance `i`. -/
def taskAt : List InstData → Nat → Option Nat
  | [], _ => none
  | d :: _, 0 => d.task
  | _ :: rest, n + 1 => taskAt rest n

/-- `self._stopped` of instance `i` (as recorded in the list). -/
def stoppedAt : List InstData → Nat → Option Bool
  | [], _ => none
  | d :: _, 0 => some d.stopped
  | _ :: rest, n + 1 => stoppedAt rest n

/-- `owner._stopped = True`. -/
def setStopped : List InstData → Nat → List InstData
  | [], _ => []
  | d :: rest, 0 => { d with stopped := true } :: rest
  | d :: rest, n + 1 => d :: setStopped rest n

/-- `self._monitor_task = <new task>` for instance `i`. -/
def setTask : List InstData → Nat → Nat → List InstData
  | [], _, _ => []
  | d :: rest, 0, t => { d with task := some t } :: rest
  | d :: rest, n + 1, t => d :: setTask rest n t

/-- Lines 236-239 of `__init__`: if a previous task is registered and not
done, mark its owner stopped and cancel it (the registry cell itself is not
cleared here). -/
def takeover (s : PState) : PState :=
  match s.regTask with
  | some t =>
    if t ∈ s.doneT then s
    else
      { s with
        insts := (match s.regOwner with
          | some o => setStopped s.insts o
          | none => s.insts)
        cancelledT := t :: s.cancelledT }
  | none => s

/-- `asyncio.create_task(self._monitor_loop())` plus the two global
assignments: give instance `i` a fresh task and register it. -/
def spawnFor (i : Nat) (s : PState) : PState :=
  { s with
    insts := setTask s.insts i s.nextTask
    nextTask := s.nextTask + 1
    regTask := some s.nextTask
    regOwner := some i }

/-- `_ensure_monitor_task` of instance `i`: return if its own task exists and
is unfinished; otherwise spawn a fresh task and register it globally. -/
def ensure_monitor_task (i : Nat) (s : PState) : PState :=
  match taskAt s.insts i with
  | some t => if t ∉ s.doneT then s else spawnFor i s
  | none => spawnFor i s

/-- Appending the freshly constructed instance (its id is its index). -/
def addInst (s : PState) : PState :=
  { s with insts := s.insts ++ [{ stopped := false, task := none }] }

/-- `__init__`: takeover, append the fresh instance, and with `auto_check`
run `_ensure_monitor_task` on it. -/
def createInstance (autoCheck : Bool) (s : PState) : PState :=
  if autoCheck then
    ensure_monitor_task (takeover s).insts.length (addInst (takeover s))
  else addInst (takeover s)

/-- `self._stopped = True` of instance `i`. -/
def markStopped (i : Nat) (s : PState) : PState :=
  { s with insts := setStopped s.insts i }

/-- Cancel and await instance `i`'s own unfinished task: the await drives it
to completion, so the task ends both cancel-requested and done. -/
def cancelOwn (i : Nat) (s : PState) : PState :=
  match taskAt s.insts i with
  | some t =>
    if t ∉ s.doneT then
      { s with
        cancelledT := t :: s.cancelledT
        doneT := t :: s.doneT }
    else s
  | none => s

/-- Clear the global registration only when it still `is` instance `i`'s
own task. -/
def clearIfOwner (i : Nat) (s : PState) : PState :=
  if s.regTask = taskAt s.insts i then
    { s with
      regTask := none
      regOwner := none }
  else s

/-- `on_unload` of instance `i`, lines 279-290. -/
def onUnload (i : Nat) (s : PState) : PState :=
  clearIfOwner i (cancelOwn i (markStopped i s))

/-- The event loop completes a created task. -/
def finishTask (t : Nat) (s : PState) : PState :=
  if t < s.nextTask then { s with doneT := t :: s.doneT } else s

inductive Event where
  | create (autoCheck : Bool)
  | unload (i : Nat)
  | finish (t : Nat)
deriving DecidableEq

def applyEvent : Event → PState → PState
  | .create b, s => createInstance b s
  | .unload i, s => onUnload i s
  | .finish t, s => finishTask t s

def runEvents (evs : List Event) : PState :=
  evs.foldl (fun s e => applyEvent e s) initPState

/-- Task `t` exists, and neither a cancellation was requested for it nor has
it finished: it is a live monitor loop. -/
def ActiveTask (s : PState) (t : Nat) : Prop :=
  t < s.nextTask ∧ t ∉ s.cancelledT ∧ t ∉ s.doneT

/-- Book-keeping bounds: every task id the state mentions was allocated. -/
def TaskBounds (s : PState) : Prop :=
  (∀ t ∈ s.cancelledT, t < s.nextTask) ∧
  (∀ t ∈ s.doneT, t < s.nextTask) ∧
  (∀ t, s.regTask = some t → t < s.nextTask) ∧
  (∀ j t, taskAt s.insts j = some t → t < s.nextTask)

/-- The singleton invariant: any live loop task is the globally registered
one (so there is at most one), plus the allocation bounds. -/
def SingletonInv (s : PState) : Prop :=
  (∀ t, ActiveTask s t → s.regTask = some t) ∧ TaskBounds s

/-! ### Concrete inputs used by the witness and counterexample theorems -/

/-- A bound electricity meter device (type code 1, online, switched on). -/
def wDev : Device :=
  ⟨some 1, some "Meter1", some 15, some 1, some "2024-01-01 10:00", some 1, some 1⟩

/-- A successful balance response for room A101 with `wDev` bound. -/
def wResp : BalanceResp := ⟨some 1, none, some ⟨some "A101", [wDev]⟩⟩

/-- A failure response whose remote message is a session-expiry phrase. -/
def wExpResp : BalanceResp := ⟨some 0, some "请登录", none⟩

/-- A client holding a (stale) token and full credentials. -/
def wClientSt : ClientState := ⟨some "tok0", some "acct", some "pw"⟩

/-- An HTTP world where every login yields token `"tok1"`, the first balance
request returns the session-expired response and later ones succeed. -/
def wEnv : HttpEnv :=
  ⟨fun _ => .ok "tok1", fun n => if n = 0 then .ok wExpResp else .ok wResp⟩

/-- A monitor state half an interval after its last check. -/
def wMonSt : MonState := ⟨.num 60, true, some 30, some 10, some 5400, ["o"]⟩

/-- A monitor state whose persisted timestamp lies in the future. -/
def wSkewSt : MonState := ⟨.num 60, true, some 30, some 10, some 20000, ["o"]⟩

/-- A successful snapshot for the monitor witnesses. -/
def wSnap : BalanceSnapshot := snapshotOf wResp wDev

/-- A monitor state that has never checked (no persisted timestamp). -/
def wDueSt : MonState := ⟨.num 60, true, some 30, some 10, none, ["o"]⟩

deriving instance DecidableEq for Except

/-! ## Supporting lemmas -/

theorem startsWithChars_iff (pat : List Char) :
    ∀ s, startsWithChars s pat = true ↔ ∃ r, pat ++ r = s := by
  induction pat with
  | nil =>
    intro s
    cases s <;> simp [startsWithChars]
  | cons p ps ih =>
    intro s
    cases s with
    | nil => simp [startsWithChars]
    | cons c cs =>
      simp only [startsWithChars, Bool.and_eq_true, beq_iff_eq, ih,
        List.cons_append, List.cons.injEq]
      constructor
      · rintro ⟨h1, r, h2⟩
        exact ⟨r, h1.symm, h2⟩
      · rintro ⟨r, h1, h2⟩
        exact ⟨h1.symm, r, h2⟩

theorem containsSubChars_iff (pat : List Char) :
    ∀ s, containsSubChars pat s = true ↔ ∃ l r, l ++ pat ++ r = s := by
  intro s
  induction s with
  | nil =>
    rw [containsSubChars, startsWithChars_iff]
    constructor
    · rintro ⟨r, h⟩
      rcases List.append_eq_nil.mp h with ⟨h1, h2⟩
      exact ⟨[], [], by simp [h1, h2]⟩
    · rintro ⟨l, r, h⟩
      rcases List.append_eq_nil.mp h with ⟨h1, h2⟩
      rcases List.append_eq_nil.mp h1 with ⟨h3, h4⟩
      exact ⟨[], by simp [h4]⟩
  | cons c cs ih =>
    rw [containsSubChars, Bool.or_eq_true, startsWithChars_iff, ih]
    constructor
    · rintro (⟨r, h⟩ | ⟨l, r, h⟩)
      · exact ⟨[], r, by simp [h]⟩
      · exact ⟨c :: l, r, by simp [h]⟩
    · rintro ⟨l, r, h⟩
      cases l with
      | nil => exact .inl ⟨r, by simpa using h⟩
      | cons a l2 =>
        rcases List.cons.injEq .. ▸ h with ⟨h1, h2⟩
        exact .inr ⟨l2, r, h2⟩

/-! ## C2: session-expired classification -/

/-- C2 counterexample: the claim says the classification is a
case-insensitive substring match, so `"TOKEN过期"` (which differs from the
listed phrase `"token过期"` only in letter case) would have to be classified
as session-expired; the code's `_looks_like_login_expired` is a plain
case-sensitive `in` test and rejects it. -/
theorem login_expired_case_cex :
    looks_like_login_expired "TOKEN过期" = false ∧
    specCaseInsensitiveExpired "TOKEN过期" = true := by
  constructor
  · decide
  · decide

/-- C2 (amended): `_looks_like_login_expired message` holds if and only if
some phrase of the fixed expiry list occurs in `message` under
case-SENSITIVE substring matching (the list itself carries the two casings
`token过期` and `Token过期`); a message differing from a listed phrase only
in letter case is not classified. -/
theorem login_expired_substring_spec (message : String) :
    looks_like_login_expired message = true ↔
      ∃ k ∈ expiryKeywords, ∃ l r, l ++ k.data ++ r = message.data := by
  simp only [looks_like_login_expired, List.any_eq_true, pyInStr,
    containsSubChars_iff]

/-! ## C3: `_parse_balance` -/

theorem firstMeterDevice_eq_none (l : List Device)
    (h : ∀ d ∈ l, d.DeviceType ≠ some 1) : firstMeterDevice l = none := by
  induction l with
  | nil => rfl
  | cons d rest ih =>
    have hd : (d.DeviceType == some 1) = false := by
      simp [h d (List.mem_cons_self d rest)]
    simp only [firstMeterDevice, hd, Bool.false_eq_true, if_false]
    exact ih fun x hx => h x (List.mem_cons_of_mem d hx)

theorem firstMeterDevice_append (pre : List Device) (d : Device)
    (post : List Device) (hpre : ∀ e ∈ pre, e.DeviceType ≠ some 1)
    (hd : d.DeviceType = some 1) :
    firstMeterDevice (pre ++ d :: post) = some d := by
  induction pre with
  | nil => simp [firstMeterDevice, hd]
  | cons e rest ih =>
    have he : (e.DeviceType == some 1) = false := by
      simp [hpre e (List.mem_cons_self e rest)]
    simp only [List.cons_append, firstMeterDevice, he, Bool.false_eq_true,
      if_false]
    exact ih fun x hx => hpre x (List.mem_cons_of_mem e hx)

/-- C3: `_parse_balance` fails with the ApiError (carrying the remote
message verbatim) when the status tag is not 1; otherwise with
NoDevicesBound when the device list is empty; otherwise it selects the
first device whose `DeviceType` is 1, failing with NoMeterDevice when none
matches; on success `is_online`/`switch_status` hold exactly when the
device's `IsOnline`/`SwitchStatus` codes equal 1. -/
theorem parse_balance_spec (data : BalanceResp) :
    (data.Tag ≠ some 1 →
      parse_balance data = .error (.apiError data.Message))
  ∧ (data.Tag = some 1 → devicesListOf data = [] →
      parse_balance data = .error .noDevicesBound)
  ∧ (data.Tag = some 1 → devicesListOf data ≠ [] →
      (∀ d ∈ devicesListOf data, d.DeviceType ≠ some 1) →
      parse_balance data = .error .noMeterDevice)
  ∧ (∀ pre d post, data.Tag = some 1 →
      devicesListOf data = pre ++ d :: post →
      (∀ e ∈ pre, e.DeviceType ≠ some 1) → d.DeviceType = some 1 →
      parse_balance data = .ok (snapshotOf data d)
      ∧ ((snapshotOf data d).is_online = true ↔ d.IsOnline = some 1)
      ∧ ((snapshotOf data d).switch_status = true ↔ d.SwitchStatus = some 1)) := by
  refine ⟨?_, ?_, ?_, ?_⟩
  · intro h
    have hb : (data.Tag != some 1) = true := by simp [bne_iff_ne, h]
    simp [parse_balance, hb]
  · intro h he
    have hb : (data.Tag != some 1) = false := by simp [h]
    simp [parse_balance, hb, he]
  · intro h hne hall
    have hb : (data.Tag != some 1) = false := by simp [h]
    have hfme := firstMeterDevice_eq_none (devicesListOf data) hall
    have hemp : (devicesListOf data).isEmpty = false := by
      simp [List.isEmpty_iff, hne]
    simp [parse_balance, hb, hemp, hfme]
  · intro pre d post h hdl hpre hd
    have hb : (data.Tag != some 1) = false := by simp [h]
    have hfme := firstMeterDevice_append pre d post hpre hd
    have hemp : (devicesListOf data).isEmpty = false := by
      simp [List.isEmpty_iff, hdl]
    refine ⟨?_, ?_, ?_⟩
    · rw [← hdl] at hfme
      simp [parse_balance, hb, hemp, hfme]
    · simp [snapshotOf]
    · simp [snapshotOf]

/-! ## C1: the login-retry policy of `get_balance` -/

theorem login_and_get_token_eq_error (env : HttpEnv) (st : ClientState)
    (tr : CallTrace) (e : String)
    (hacc : pyTruthy st.account = true) (hpw : pyTruthy st.password = true)
    (h : env.login tr.logins = .error e) :
    login_and_get_token env st tr =
      (.error e, { tr with logins := tr.logins + 1 }) := by
  simp [login_and_get_token, hacc, hpw, h]

theorem login_and_get_token_eq_ok (env : HttpEnv) (st : ClientState)
    (tr : CallTrace) (tok : String)
    (hacc : pyTruthy st.account = true) (hpw : pyTruthy st.password = true)
    (h : env.login tr.logins = .ok tok) :
    login_and_get_token env st tr =
      (.ok { st with token := some tok }, { tr with logins := tr.logins + 1 }) := by
  simp [login_and_get_token, hacc, hpw, h]

theorem fetch_and_parse_trace (env : HttpEnv) (st : ClientState) (tr : CallTrace) :
    (fetch_and_parse env st tr).2 = { tr with fetches := tr.fetches + 1 } := by
  cases htok : pyTruthy st.token with
  | false => simp [fetch_and_parse, request_balance, htok]
  | true =>
    cases hf : env.fetch tr.fetches with
    | error e => simp [fetch_and_parse, request_balance, htok, hf]
    | ok data =>
      cases hp : parse_balance data with
      | error pe => simp [fetch_and_parse, request_balance, htok, hf, hp]
      | ok snap => simp [fetch_and_parse, request_balance, htok, hf, hp]

theorem fetch_and_parse_of_ok (env : HttpEnv) (st : ClientState)
    (tr : CallTrace) (data : BalanceResp) (snap : BalanceSnapshot)
    (htok : pyTruthy st.token = true)
    (hf : env.fetch tr.fetches = .ok data)
    (hp : parse_balance data = .ok snap) :
    fetch_and_parse env st tr =
      (.ok snap, { tr with fetches := tr.fetches + 1 }) := by
  simp [fetch_and_parse, request_balance, htok, hf, hp]

theorem login_and_get_token_ok_creds (env : HttpEnv) (st : ClientState)
    (tr : CallTrace) (st2 : ClientState) (tr2 : CallTrace)
    (h : login_and_get_token env st tr = (.ok st2, tr2)) :
    st2.account = st.account ∧ st2.password = st.password := by
  unfold login_and_get_token at h
  split at h
  · simp at h
  · rcases he : env.login tr.logins with e | tok
    · rw [he] at h
      simp at h
    · rw [he] at h
      simp only [Prod.mk.injEq, Except.ok.injEq] at h
      rw [← h.1]
      exact ⟨rfl, rfl⟩

theorem get_balance_try_creds (env : HttpEnv) (st : ClientState) (b : Bool) :
    (get_balance_try env st b).2.2.account = st.account ∧
    (get_balance_try env st b).2.2.password = st.password := by
  unfold get_balance_try
  split
  · rcases hl : login_and_get_token env st ⟨0, 0⟩ with ⟨r, tr1⟩
    cases r with
    | error e => exact ⟨rfl, rfl⟩
    | ok st2 =>
      rcases hfp : fetch_and_parse env st2 tr1 with ⟨r2, tr2⟩
      exact login_and_get_token_ok_creds env st ⟨0, 0⟩ st2 tr1 hl
  · rcases hfp : fetch_and_parse env st ⟨0, 0⟩ with ⟨r, tr1⟩
    exact ⟨rfl, rfl⟩

/-- C1: when the `try` block of `get_balance` (with `auto_retry = true` and
credentials present) ends in an error `e`, then: a non-matching `e`
propagates unchanged with no further calls; a matching `e` triggers exactly
one additional login — on login failure that error propagates with no
further fetch, on login success exactly one additional fetch+parse runs and
its outcome (error propagated unchanged, or the parsed snapshot) is
returned; the call counts never grow by more than one login and one fetch
past the first attempt. -/
theorem get_balance_retry_policy (env : HttpEnv) (st : ClientState)
    (e : String) (tr : CallTrace) (st1 : ClientState)
    (hacc : pyTruthy st.account = true) (hpw : pyTruthy st.password = true)
    (htry : get_balance_try env st true = (.error e, tr, st1)) :
    (looks_like_login_expired e = false →
      get_balance env st true = (.error e, tr, st1))
  ∧ (looks_like_login_expired e = true →
      ((∀ e2, env.login tr.logins = .error e2 →
          get_balance env st true =
            (.error e2, { logins := tr.logins + 1, fetches := tr.fetches }, st1))
      ∧ (∀ tok, env.login tr.logins = .ok tok →
          get_balance env st true =
            ((fetch_and_parse env { st1 with token := some tok }
                { tr with logins := tr.logins + 1 }).1,
             { logins := tr.logins + 1, fetches := tr.fetches + 1 },
             { st1 with token := some tok }))
      ∧ (∀ tok data snap, env.login tr.logins = .ok tok → tok ≠ "" →
          env.fetch tr.fetches = .ok data → parse_balance data = .ok snap →
          get_balance env st true =
            (.ok snap, { logins := tr.logins + 1, fetches := tr.fetches + 1 },
             { st1 with token := some tok })))) := by
  have hcr := get_balance_try_creds env st true
  rw [htry] at hcr
  have hacc1 : pyTruthy st1.account = true := by
    rw [show st1.account = st.account from hcr.1]
    exact hacc
  have hpw1 : pyTruthy st1.password = true := by
    rw [show st1.password = st.password from hcr.2]
    exact hpw
  refine ⟨?_, ?_⟩
  · intro hno
    unfold get_balance
    rw [htry]
    simp [hacc1, hpw1, hno]
  · intro hyes
    refine ⟨?_, ?_, ?_⟩
    · intro e2 hl
      unfold get_balance
      rw [htry]
      have hlt := login_and_get_token_eq_error env st1 tr e2 hacc1 hpw1 hl
      simp [hacc1, hpw1, hyes, hlt]
    · intro tok hl
      unfold get_balance
      rw [htry]
      have hlt := login_and_get_token_eq_ok env st1 tr tok hacc1 hpw1 hl
      have htr := fetch_and_parse_trace env { st1 with token := some tok }
        { tr with logins := tr.logins + 1 }
      rcases hfp : fetch_and_parse env { st1 with token := some tok }
          { tr with logins := tr.logins + 1 } with ⟨r, tr3⟩
      rw [hfp] at htr
      simp only at htr
      simp [hacc1, hpw1, hyes, hlt, hfp, htr]
    · intro tok data snap hl hne hfd hpd
      unfold get_balance
      rw [htry]
      have hlt := login_and_get_token_eq_ok env st1 tr tok hacc1 hpw1 hl
      have hie : tok.isEmpty = false := by
        cases hb : tok.isEmpty
        · rfl
        · exact absurd ((String.isEmpty_iff tok).mp hb) hne
      have htok : pyTruthy (ClientState.token { st1 with token := some tok }) = true := by
        simp [pyTruthy, hie]
      have hfp := fetch_and_parse_of_ok env { st1 with token := some tok }
        { tr with logins := tr.logins + 1 } data snap htok hfd hpd
      simp [hacc1, hpw1, hyes, hlt, hfp]

/-- C1 witness: with a stale token, the first fetch returns the
session-expired response; the call performs one re-login, one more fetch,
and returns the parsed snapshot of the second response. -/
theorem get_balance_retry_policy_witness :
    get_balance wEnv wClientSt true =
      (.ok wSnap, ⟨1, 2⟩, { wClientSt with token := some "tok1" }) := by
  have h := get_balance_retry_policy wEnv wClientSt "api error: 请登录"
    ⟨0, 1⟩ wClientSt (by decide) (by decide) (by decide)
  exact ((h.2 (by decide)).2.2) "tok1" wResp wSnap rfl (by decide) rfl rfl

/-! ## C7: subscribe / unsubscribe -/

theorem mem_dedupeAux (a : String) (items : List String) :
    ∀ seen, a ∈ dedupeAux seen items ↔ a ∈ items ∧ a ∉ seen := by
  induction items with
  | nil => intro seen; simp [dedupeAux]
  | cons x rest ih =>
    intro seen
    by_cases hx : x ∈ seen
    · rw [dedupeAux, if_pos hx, ih seen]
      constructor
      · rintro ⟨h1, h2⟩
        exact ⟨List.mem_cons_of_mem x h1, h2⟩
      · rintro ⟨h1, h2⟩
        rcases List.mem_cons.mp h1 with h1 | h1
        · exact absurd (h1 ▸ hx) h2
        · exact ⟨h1, h2⟩
    · rw [dedupeAux, if_neg hx]
      simp only [List.mem_cons, ih (x :: seen)]
      constructor
      · rintro (rfl | ⟨h1, h2⟩)
        · exact ⟨Or.inl rfl, hx⟩
        · exact ⟨Or.inr h1, fun hs => h2 (Or.inr hs)⟩
      · rintro ⟨h1 | h1, h2⟩
        · exact Or.inl h1
        · by_cases hax : a = x
          · exact Or.inl hax
          · exact Or.inr ⟨h1, fun hs => hs.elim hax h2⟩

theorem nodup_dedupeAux (items : List String) :
    ∀ seen, (dedupeAux seen items).Nodup := by
  induction items with
  | nil => intro seen; simp [dedupeAux]
  | cons x rest ih =>
    intro seen
    by_cases hx : x ∈ seen
    · rw [dedupeAux, if_pos hx]
      exact ih seen
    · rw [dedupeAux, if_neg hx]
      refine List.nodup_cons.mpr ⟨?_, ih (x :: seen)⟩
      intro hmem
      exact ((mem_dedupeAux x rest (x :: seen)).mp hmem).2
        (List.mem_cons_self x seen)

theorem dedupeAux_eq_self (items : List String) :
    ∀ seen, (∀ a ∈ items, a ∉ seen) → items.Nodup →
      dedupeAux seen items = items := by
  induction items with
  | nil => intro seen _ _; rfl
  | cons x rest ih =>
    intro seen hdisj hnd
    have hx : x ∉ seen := hdisj x (List.mem_cons_self x rest)
    rw [dedupeAux, if_neg hx]
    have hrest : ∀ a ∈ rest, a ∉ x :: seen := by
      intro a ha
      intro hmem
      rcases List.mem_cons.mp hmem with h | h
      · exact (List.nodup_cons.mp hnd).1 (h ▸ ha)
      · exact hdisj a (List.mem_cons_of_mem x ha) h
    rw [ih (x :: seen) hrest (List.nodup_cons.mp hnd).2]

theorem mem_dedupe_list (a : String) (items : List String) :
    a ∈ dedupe_list items ↔ a ∈ items := by
  rw [dedupe_list, mem_dedupeAux]
  simp

theorem nodup_dedupe_list (items : List String) : (dedupe_list items).Nodup :=
  nodup_dedupeAux items []

theorem dedupe_list_eq_self (items : List String) (h : items.Nodup) :
    dedupe_list items = items :=
  dedupeAux_eq_self items [] (by simp) h

/-- C7: subscribing twice with the same destination is idempotent (so the
stored set keeps its size); unsubscribing a non-subscribed destination is a
no-op; both operations preserve freedom from duplicates; and a new
subscription is appended at the end, preserving insertion order. -/
theorem subscribe_unsubscribe_spec (origin : String) (origins : List String) :
    subscribeOp origin (subscribeOp origin origins) = subscribeOp origin origins
  ∧ (origin ∉ origins → unsubscribeOp origin origins = origins)
  ∧ (origins.Nodup →
      (subscribeOp origin origins).Nodup ∧ (unsubscribeOp origin origins).Nodup)
  ∧ (origins.Nodup → origin ∉ origins →
      subscribeOp origin origins = origins ++ [origin]) := by
  refine ⟨?_, ?_, ?_, ?_⟩
  · have hmem : origin ∈ subscribeOp origin origins := by
      rw [subscribeOp]
      by_cases h : origin ∈ origins
      · rw [if_pos h]
        exact h
      · rw [if_neg h, mem_dedupe_list]
        simp
    rw [subscribeOp, if_pos hmem]
  · intro h
    unfold unsubscribeOp
    rw [if_neg h]
  · intro hnd
    constructor
    · unfold subscribeOp
      by_cases h : origin ∈ origins
      · rw [if_pos h]
        exact hnd
      · rw [if_neg h]
        exact nodup_dedupe_list (origins ++ [origin])
    · unfold unsubscribeOp
      by_cases h : origin ∈ origins
      · rw [if_pos h]
        exact nodup_dedupe_list (origins.erase origin)
      · rw [if_neg h]
        exact hnd
  · intro hnd hnotin
    unfold subscribeOp
    rw [if_neg hnotin]
    exact dedupe_list_eq_self (origins ++ [origin])
      (by simp [List.nodup_append, hnd, hnotin])

/-! ## C10: `_normalize_list` -/

theorem stripChars_eq_nil_iff (l : List Char) :
    stripChars l = [] ↔ ∀ c ∈ l, pySpaceChar c := by
  unfold stripChars
  rw [List.reverse_eq_nil_iff, List.dropWhile_eq_nil_iff]
  constructor
  · intro h c hc
    rw [← List.takeWhile_append_dropWhile (p := pySpaceChar) (l := l)] at hc
    rcases List.mem_append.mp hc with h1 | h1
    · exact List.mem_takeWhile_imp h1
    · exact h c (List.mem_reverse.mpr h1)
  · intro h c hc
    exact h c ((List.dropWhile_sublist pySpaceChar).subset (List.mem_reverse.mp hc))

theorem splitCommaChars_all_space (l : List Char)
    (h : ∀ c ∈ l, pySpaceChar c) : splitCommaChars l = [l] := by
  induction l with
  | nil => rfl
  | cons c rest ih =>
    have hc : pySpaceChar c := h c (List.mem_cons_self c rest)
    have hcne : c ≠ ',' := by
      intro hceq
      rw [hceq] at hc
      exact absurd hc (by decide)
    have hcomma : (c == ',') = false := beq_eq_false_iff_ne.mpr hcne
    simp only [splitCommaChars, hcomma, Bool.false_eq_true, if_false,
      ih fun x hx => h x (List.mem_cons_of_mem c hx)]

theorem commaSplitClean_of_strip_empty (s : String) (h : pyStrip s = "") :
    commaSplitClean s = [] := by
  have hdata : stripChars s.data = [] := congrArg String.data h
  have hall : ∀ c ∈ s.data, pySpaceChar c := (stripChars_eq_nil_iff s.data).mp hdata
  unfold commaSplitClean pySplitComma
  rw [splitCommaChars_all_space s.data hall]
  simp [pyStrip, hdata]

/-- C10: reading the notify-destination list is a total function of the
stored value: `None` and any non-list non-string value give `[]`, a stored
list is returned as-is, and a string is the JSON-parsed list when
`json.loads` yields one, otherwise the comma-split with every item
whitespace-stripped and blank items dropped. -/
theorem normalize_list_spec (jloads : String → Option (List String)) :
    normalize_list jloads .pynone = []
  ∧ (∀ l, normalize_list jloads (.list l) = l)
  ∧ normalize_list jloads .other = []
  ∧ (∀ s parsed, jloads s = some parsed →
      normalize_list jloads (.str s) = parsed)
  ∧ (∀ s, jloads s = none →
      normalize_list jloads (.str s) = commaSplitClean s) := by
  refine ⟨rfl, fun l => rfl, rfl, ?_, ?_⟩
  · intro s parsed hj
    simp [normalize_list, hj]
  · intro s hj
    simp only [normalize_list, hj]
    by_cases hs : pyStrip s = ""
    · rw [if_neg fun hne => hne hs, commaSplitClean_of_strip_empty s hs]
    · rw [if_pos hs]

/-! ## Monitor-loop helpers shared by C4, C5, C6, C9 -/

theorem monitorIter_continue (st : MonState) (now t : Rat)
    (fetch : Except String BalanceSnapshot)
    (hts : st.last_check_ts = some t) (hle : t ≤ now)
    (hlt : now - t < intervalSecondsOf st) :
    monitorIter st now fetch =
      { preSleep := some (intervalSecondsOf st - (now - t))
        continued := true
        clearedTs := false
        checked := false
        lowFired := false
        rechargeFired := false
        failNotified := false
        last_check_ts := some t
        last_balance := st.last_balance
        endSleep := none } := by
  simp only [monitorIter, hts]
  rw [if_pos hle, if_pos hlt]

theorem monitorIter_due (st : MonState) (now t : Rat)
    (fetch : Except String BalanceSnapshot)
    (hts : st.last_check_ts = some t) (hle : t ≤ now)
    (hge : ¬ now - t < intervalSecondsOf st) :
    monitorIter st now fetch = monitorCheckPhase st now fetch false := by
  simp only [monitorIter, hts]
  rw [if_pos hle, if_neg hge]

theorem monitorIter_skew (st : MonState) (now t : Rat)
    (fetch : Except String BalanceSnapshot)
    (hts : st.last_check_ts = some t) (hfut : now < t) :
    monitorIter st now fetch = monitorCheckPhase st now fetch true := by
  simp only [monitorIter, hts]
  rw [if_neg (not_le.mpr hfut)]

theorem monitorIter_nolast (st : MonState) (now : Rat)
    (fetch : Except String BalanceSnapshot)
    (hts : st.last_check_ts = none) :
    monitorIter st now fetch = monitorCheckPhase st now fetch false := by
  simp only [monitorIter, hts]

theorem checkPhase_base (st : MonState) (now : Rat)
    (fetch : Except String BalanceSnapshot) (cleared : Bool) :
    (monitorCheckPhase st now fetch cleared).clearedTs = cleared ∧
    (monitorCheckPhase st now fetch cleared).preSleep = none ∧
    (monitorCheckPhase st now fetch cleared).continued = false ∧
    (monitorCheckPhase st now fetch cleared).endSleep =
      some (intervalSecondsOf st) := by
  cases hg : (st.auto_check && !st.notify_origins.isEmpty) with
  | false => simp [monitorCheckPhase, hg]
  | true =>
    cases fetch with
    | error e => simp [monitorCheckPhase, hg]
    | ok info =>
      rcases hb : info.balance with _ | bal <;>
        simp [monitorCheckPhase, hg, hb]

theorem checkPhase_checked (st : MonState) (now : Rat)
    (fetch : Except String BalanceSnapshot) (cleared : Bool)
    (hauto : st.auto_check = true) (hor : st.notify_origins ≠ []) :
    (monitorCheckPhase st now fetch cleared).checked = true := by
  have hg : (st.auto_check && !st.notify_origins.isEmpty) = true := by
    simp [hauto, List.isEmpty_iff, hor]
  cases fetch with
  | error e => simp [monitorCheckPhase, hg]
  | ok info =>
    rcases hb : info.balance with _ | bal <;>
      simp [monitorCheckPhase, hg, hb]

theorem checkPhase_fail_state (st : MonState) (now : Rat)
    (fetch : Except String BalanceSnapshot) (cleared : Bool)
    (h : (monitorCheckPhase st now fetch cleared).failNotified = true) :
    (monitorCheckPhase st now fetch cleared).last_check_ts =
      (if cleared then none else st.last_check_ts) ∧
    (monitorCheckPhase st now fetch cleared).last_balance = st.last_balance := by
  cases hg : (st.auto_check && !st.notify_origins.isEmpty) with
  | false => simp [monitorCheckPhase, hg]
  | true =>
    cases fetch with
    | error e => simp [monitorCheckPhase, hg]
    | ok info =>
      rcases hb : info.balance with _ | bal
      · simp [monitorCheckPhase, hg, hb]
      · rw [monitorCheckPhase] at h
        simp only [hg, hb] at h
        simp at h

theorem checkPhase_success (st : MonState) (now : Rat)
    (info : BalanceSnapshot) (bal : Rat) (cleared : Bool)
    (hbal : info.balance = some bal)
    (hchk : (monitorCheckPhase st now (.ok info) cleared).checked = true) :
    (monitorCheckPhase st now (.ok info) cleared).failNotified = false ∧
    (monitorCheckPhase st now (.ok info) cleared).last_check_ts = some now ∧
    (monitorCheckPhase st now (.ok info) cleared).last_balance = some bal := by
  cases hg : (st.auto_check && !st.notify_origins.isEmpty) with
  | false =>
    rw [monitorCheckPhase] at hchk
    simp only [hg] at hchk
    simp at hchk
  | true => simp [monitorCheckPhase, hg, hbal]

/-! ## C5: the remaining-wait sleep -/

/-- C5: with a persisted `last_check_ts = t`, `t ≤ now` and elapsed time
`now - t` strictly below the interval, the iteration sleeps exactly
`interval_seconds - elapsed`, performs no check, leaves the persisted state
untouched and re-evaluates from the top (no trailing sleep). -/
theorem monitor_remaining_wait (st : MonState) (now t : Rat)
    (fetch : Except String BalanceSnapshot)
    (hts : st.last_check_ts = some t) (hle : t ≤ now)
    (hlt : now - t < intervalSecondsOf st) :
    monitorIter st now fetch =
      { preSleep := some (intervalSecondsOf st - (now - t))
        continued := true
        clearedTs := false
        checked := false
        lowFired := false
        rechargeFired := false
        failNotified := false
        last_check_ts := some t
        last_balance := st.last_balance
        endSleep := none } :=
  monitorIter_continue st now t fetch hts hle hlt

/-- C5 witness: interval 60 minutes, last check half an interval (1800 s)
ago: the first wait is exactly 1800 s, neither a full interval nor zero. -/
theorem monitor_remaining_wait_witness :
    (monitorIter wMonSt 7200 (.error "boom")).preSleep = some 1800 ∧
    (monitorIter wMonSt 7200 (.error "boom")).continued = true ∧
    (monitorIter wMonSt 7200 (.error "boom")).checked = false ∧
    (monitorIter wMonSt 7200 (.error "boom")).endSleep = none := by
  have hint : intervalSecondsOf wMonSt = 3600 := by
    show ((max 1 60 : Int) : Rat) * 60 = 3600
    norm_num
  have h := monitor_remaining_wait wMonSt 7200 5400 (.error "boom") rfl
    (by norm_num) (by rw [hint]; norm_num)
  rw [h]
  refine ⟨?_, rfl, rfl, rfl⟩
  rw [hint]
  norm_num

/-! ## C6: future (skewed) timestamp -/

/-- C6: with a persisted `last_check_ts` strictly in the future, the
iteration clears the stored timestamp (the clear is persisted before the
check runs), does not sleep the remaining-wait sleep and does not
`continue`; with `auto_check` on and a non-empty destination list it
performs the check in the same iteration. -/
theorem monitor_future_ts_clear (st : MonState) (now t : Rat)
    (fetch : Except String BalanceSnapshot)
    (hts : st.last_check_ts = some t) (hfut : now < t) :
    monitorIter st now fetch = monitorCheckPhase st now fetch true
  ∧ (monitorIter st now fetch).clearedTs = true
  ∧ (monitorIter st now fetch).preSleep = none
  ∧ (monitorIter st now fetch).continued = false
  ∧ (st.auto_check = true → st.notify_origins ≠ [] →
      (monitorIter st now fetch).checked = true) := by
  have heq := monitorIter_skew st now t fetch hts hfut
  refine ⟨heq, ?_, ?_, ?_, ?_⟩
  · rw [heq]
    exact (checkPhase_base st now fetch true).1
  · rw [heq]
    exact (checkPhase_base st now fetch true).2.1
  · rw [heq]
    exact (checkPhase_base st now fetch true).2.2.1
  · intro hauto hor
    rw [heq]
    exact checkPhase_checked st now fetch true hauto hor

/-- C6 witness: `last_check_ts = now + 10000`: the timestamp is cleared and
the check runs immediately in the same iteration. -/
theorem monitor_future_ts_clear_witness :
    (monitorIter wSkewSt 10000 (.ok wSnap)).clearedTs = true ∧
    (monitorIter wSkewSt 10000 (.ok wSnap)).preSleep = none ∧
    (monitorIter wSkewSt 10000 (.ok wSnap)).checked = true := by
  have h := monitor_future_ts_clear wSkewSt 10000 20000 (.ok wSnap) rfl
    (by decide)
  exact ⟨h.2.1, h.2.2.1, h.2.2.2.2 rfl (by decide)⟩

/-! ## C9: the persisted timestamp is the iteration-start sample -/

/-- C9: whenever the iteration performed a check (`checked`) and the fetch
succeeded with a convertible balance, the persisted `last_check_ts` is
exactly `now` — the single `time.time()` sample the iteration took at its
start, before the balance fetch — and the balance is persisted with it. -/
theorem monitor_ts_sampled_at_start (st : MonState) (now : Rat)
    (info : BalanceSnapshot) (bal : Rat)
    (hbal : info.balance = some bal)
    (hchk : (monitorIter st now (.ok info)).checked = true) :
    (monitorIter st now (.ok info)).last_check_ts = some now ∧
    (monitorIter st now (.ok info)).last_balance = some bal := by
  rcases hts : st.last_check_ts with _ | t
  · rw [monitorIter_nolast st now (.ok info) hts] at hchk ⊢
    have h := checkPhase_success st now info bal false hbal hchk
    exact ⟨h.2.1, h.2.2⟩
  · by_cases hle : t ≤ now
    · by_cases hlt : now - t < intervalSecondsOf st
      · rw [monitorIter_continue st now t (.ok info) hts hle hlt] at hchk
        simp at hchk
      · rw [monitorIter_due st now t (.ok info) hts hle hlt] at hchk ⊢
        have h := checkPhase_success st now info bal false hbal hchk
        exact ⟨h.2.1, h.2.2⟩
    · rw [monitorIter_skew st now t (.ok info) hts (not_le.mp hle)] at hchk ⊢
      have h := checkPhase_success st now info bal true hbal hchk
      exact ⟨h.2.1, h.2.2⟩

/-- C9 witness: never-checked state, successful fetch with balance 15 at
`now = 7200`: the iteration persists exactly `(7200, 15)`. -/
theorem monitor_ts_sampled_at_start_witness :
    (monitorIter wDueSt 7200 (.ok wSnap)).last_check_ts = some 7200 ∧
    (monitorIter wDueSt 7200 (.ok wSnap)).last_balance = some 15 := by
  exact monitor_ts_sampled_at_start wDueSt 7200 wSnap 15 rfl (by decide)

/-! ## C4: persistence on failed and successful checks -/

/-- C4 counterexample: an iteration whose persisted timestamp lies in the
future first clears (and persists) that timestamp, then runs the check; when
the fetch then fails, the persisted `last_check_ts` at the end of the
iteration (`none`) is NOT what it was before the iteration (`some 20000`),
contradicting the claim's "left exactly as they were before the
iteration". -/
theorem monitor_failure_skew_cex :
    (monitorIter wSkewSt 10000 (.error "boom")).checked = true ∧
    (monitorIter wSkewSt 10000 (.error "boom")).failNotified = true ∧
    wSkewSt.last_check_ts = some 20000 ∧
    (monitorIter wSkewSt 10000 (.error "boom")).last_check_ts = none := by
  refine ⟨by decide, by decide, by decide, by decide⟩

/-- C4 (amended): the failure path persists nothing — on any failed check
the persisted values equal what they were just before the check, i.e. the
original `last_balance`, and the original `last_check_ts` unless the
clock-skew step of the same iteration had already cleared it; on a
successful fetch with convertible balance both cells are persisted
(`now` and the balance), independent of which notifications fired. -/
theorem monitor_persistence_amended (st : MonState) (now : Rat)
    (fetch : Except String BalanceSnapshot) :
    ((monitorIter st now fetch).failNotified = true →
      (monitorIter st now fetch).last_check_ts =
        (if (monitorIter st now fetch).clearedTs then none else st.last_check_ts)
      ∧ (monitorIter st now fetch).last_balance = st.last_balance)
  ∧ (∀ info bal, fetch = .ok info → info.balance = some bal →
      (monitorIter st now fetch).checked = true →
      (monitorIter st now fetch).failNotified = false ∧
      (monitorIter st now fetch).last_check_ts = some now ∧
      (monitorIter st now fetch).last_balance = some bal) := by
  constructor
  · intro hfail
    rcases hts : st.last_check_ts with _ | t
    · rw [monitorIter_nolast st now fetch hts] at hfail ⊢
      rw [(checkPhase_base st now fetch false).1]
      exact (checkPhase_fail_state st now fetch false hfail).imp
        (fun h => by rw [h, hts]) id
    · by_cases hle : t ≤ now
      · by_cases hlt : now - t < intervalSecondsOf st
        · rw [monitorIter_continue st now t fetch hts hle hlt] at hfail
          simp at hfail
        · rw [monitorIter_due st now t fetch hts hle hlt] at hfail ⊢
          rw [(checkPhase_base st now fetch false).1]
          exact (checkPhase_fail_state st now fetch false hfail).imp
            (fun h => by rw [h, hts]) id
      · rw [monitorIter_skew st now t fetch hts (not_le.mp hle)] at hfail ⊢
        rw [(checkPhase_base st now fetch true).1]
        exact (checkPhase_fail_state st now fetch true hfail).imp
          (fun h => by rw [h, hts]) id
  · rintro info bal rfl hbal hchk
    rcases hts : st.last_check_ts with _ | t
    · rw [monitorIter_nolast st now (.ok info) hts] at hchk ⊢
      exact checkPhase_success st now info bal false hbal hchk
    · by_cases hle : t ≤ now
      · by_cases hlt : now - t < intervalSecondsOf st
        · rw [monitorIter_continue st now t (.ok info) hts hle hlt] at hchk
          simp at hchk
        · rw [monitorIter_due st now t (.ok info) hts hle hlt] at hchk ⊢
          exact checkPhase_success st now info bal false hbal hchk
      · rw [monitorIter_skew st now t (.ok info) hts (not_le.mp hle)] at hchk ⊢
        exact checkPhase_success st now info bal true hbal hchk

/-! ## C8: the singleton coordinator -/

theorem taskAt_setStopped (l : List InstData) :
    ∀ o j, taskAt (setStopped l o) j = taskAt l j := by
  induction l with
  | nil => intro o j; rfl
  | cons d rest ih =>
    intro o j
    cases o with
    | zero => cases j <;> simp [setStopped, taskAt]
    | succ o2 => cases j <;> simp [setStopped, taskAt, ih]

theorem length_setStopped (l : List InstData) :
    ∀ o, (setStopped l o).length = l.length := by
  induction l with
  | nil => intro o; rfl
  | cons d rest ih =>
    intro o
    cases o <;> simp [setStopped, ih]

theorem stoppedAt_setStopped_self (l : List InstData) :
    ∀ o, o < l.length → stoppedAt (setStopped l o) o = some true := by
  induction l with
  | nil => intro o h; exact absurd h (Nat.not_lt_zero o)
  | cons d rest ih =>
    intro o h
    cases o with
    | zero => rfl
    | succ o2 => exact ih o2 (Nat.lt_of_succ_lt_succ h)

theorem stoppedAt_setTask (l : List InstData) :
    ∀ i v j, stoppedAt (setTask l i v) j = stoppedAt l j := by
  induction l with
  | nil => intro i v j; rfl
  | cons d rest ih =>
    intro i v j
    cases i with
    | zero => cases j <;> simp [setTask, stoppedAt]
    | succ i2 => cases j <;> simp [setTask, stoppedAt, ih]

theorem stoppedAt_append_left (l : List InstData) (d : InstData) :
    ∀ j, j < l.length → stoppedAt (l ++ [d]) j = stoppedAt l j := by
  induction l with
  | nil => intro j h; exact absurd h (Nat.not_lt_zero j)
  | cons e rest ih =>
    intro j h
    cases j with
    | zero => rfl
    | succ j2 => exact ih j2 (Nat.lt_of_succ_lt_succ h)

theorem taskAt_append_self (l : List InstData) (d : InstData) :
    taskAt (l ++ [d]) l.length = d.task := by
  induction l with
  | nil => rfl
  | cons e rest ih => exact ih

theorem taskAt_append_cases (l : List InstData) (d : InstData) :
    ∀ j t, taskAt (l ++ [d]) j = some t →
      taskAt l j = some t ∨ d.task = some t := by
  induction l with
  | nil =>
    intro j t h
    cases j with
    | zero => exact .inr h
    | succ j2 =>
      cases j2 <;> simp [taskAt] at h
  | cons e rest ih =>
    intro j t h
    cases j with
    | zero => exact .inl h
    | succ j2 => exact ih j2 t h

theorem taskAt_setTask_cases (l : List InstData) :
    ∀ i v j t, taskAt (setTask l i v) j = some t →
      t = v ∨ taskAt l j = some t := by
  induction l with
  | nil =>
    intro i v j t h
    simp [setTask, taskAt] at h
  | cons d rest ih =>
    intro i v j t h
    cases i with
    | zero =>
      cases j with
      | zero =>
        simp only [setTask, taskAt, Option.some.injEq] at h
        exact .inl h.symm
      | succ j2 => exact .inr h
    | succ i2 =>
      cases j with
      | zero => exact .inr h
      | succ j2 => exact ih i2 v j2 t h

theorem takeover_cases (s : PState) :
    takeover s = s ∨
    takeover s =
      { s with
        insts := (match s.regOwner with
          | some o => setStopped s.insts o
          | none => s.insts)
        cancelledT := (s.regTask.getD 0) :: s.cancelledT } := by
  rcases hreg : s.regTask with _ | t
  · left
    simp only [takeover, hreg]
  · by_cases hd : t ∈ s.doneT
    · left
      simp only [takeover, hreg]
      rw [if_pos hd]
    · right
      simp only [takeover, hreg]
      rw [if_neg hd]
      rfl

theorem takeover_simple (s : PState) :
    (takeover s).nextTask = s.nextTask ∧
    (takeover s).doneT = s.doneT ∧
    (takeover s).regTask = s.regTask ∧
    (takeover s).regOwner = s.regOwner ∧
    (takeover s).insts.length = s.insts.length ∧
    (∀ j, taskAt (takeover s).insts j = taskAt s.insts j) := by
  rcases takeover_cases s with he | he <;> rw [he]
  · exact ⟨rfl, rfl, rfl, rfl, rfl, fun j => rfl⟩
  · refine ⟨rfl, rfl, rfl, rfl, ?_, ?_⟩
    · rcases ho : s.regOwner with _ | o <;> simp [ho, length_setStopped]
    · intro j
      rcases ho : s.regOwner with _ | o <;> simp [ho, taskAt_setStopped]

theorem takeover_cancelled_mono (s : PState) (t2 : Nat)
    (h : t2 ∈ s.cancelledT) : t2 ∈ (takeover s).cancelledT := by
  rcases hreg : s.regTask with _ | t
  · simpa only [takeover, hreg] using h
  · simp only [takeover, hreg]
    by_cases hd : t ∈ s.doneT
    · rw [if_pos hd]
      exact h
    · rw [if_neg hd]
      exact List.mem_cons_of_mem t h

theorem takeover_cancelled_cases (s : PState) (t2 : Nat)
    (h : t2 ∈ (takeover s).cancelledT) :
    t2 ∈ s.cancelledT ∨ s.regTask = some t2 := by
  rcases hreg : s.regTask with _ | t
  · simp only [takeover, hreg] at h
    exact .inl h
  · simp only [takeover, hreg] at h
    by_cases hd : t ∈ s.doneT
    · rw [if_pos hd] at h
      exact .inl h
    · rw [if_neg hd] at h
      rcases List.mem_cons.mp h with h | h
      · exact .inr (by rw [h])
      · exact .inl h

theorem takeover_cancels_registered (s : PState) (t : Nat)
    (hreg : s.regTask = some t) (hd : t ∉ s.doneT) :
    t ∈ (takeover s).cancelledT ∧
    (∀ o, s.regOwner = some o → (takeover s).insts = setStopped s.insts o) := by
  simp only [takeover, hreg]
  rw [if_neg hd]
  refine ⟨List.mem_cons_self t s.cancelledT, ?_⟩
  intro o ho
  simp [ho]

theorem no_active_takeover (s : PState)
    (hA : ∀ t, ActiveTask s t → s.regTask = some t) :
    ∀ t, ¬ ActiveTask (takeover s) t := by
  intro t2 hact
  obtain ⟨hlt, hcan, hdone⟩ := hact
  rw [(takeover_simple s).1] at hlt
  rw [(takeover_simple s).2.1] at hdone
  have hactS : ActiveTask s t2 :=
    ⟨hlt, fun hc => hcan (takeover_cancelled_mono s t2 hc), hdone⟩
  have hreg := hA t2 hactS
  exact hcan (takeover_cancels_registered s t2 hreg hdone).1

theorem bounds_takeover (s : PState) (h : TaskBounds s) :
    TaskBounds (takeover s) := by
  obtain ⟨hc, hd, hr, ht⟩ := h
  obtain ⟨hn, hdn, hrg, hro, hlen, htk⟩ := takeover_simple s
  refine ⟨?_, ?_, ?_, ?_⟩
  · intro t hmem
    rw [hn]
    rcases takeover_cancelled_cases s t hmem with h2 | h2
    · exact hc t h2
    · exact hr t h2
  · intro t hmem
    rw [hdn] at hmem
    rw [hn]
    exact hd t hmem
  · intro t hreg2
    rw [hrg] at hreg2
    rw [hn]
    exact hr t hreg2
  · intro j t htk2
    rw [htk j] at htk2
    rw [hn]
    exact ht j t htk2

theorem bounds_addInst (s : PState) (h : TaskBounds s) :
    TaskBounds (addInst s) := by
  obtain ⟨hc, hd, hr, ht⟩ := h
  refine ⟨hc, hd, hr, ?_⟩
  intro j t htk
  rcases taskAt_append_cases s.insts { stopped := false, task := none } j t htk
    with h2 | h2
  · exact ht j t h2
  · simp at h2

theorem active_addInst (s : PState) (t : Nat) :
    ActiveTask (addInst s) t ↔ ActiveTask s t := Iff.rfl

theorem inv_spawnFor (i : Nat) (s : PState)
    (hno : ∀ t, ¬ ActiveTask s t) (hb : TaskBounds s) :
    SingletonInv (spawnFor i s) := by
  obtain ⟨hc, hd, hr, ht⟩ := hb
  constructor
  · intro t hact
    obtain ⟨hlt, hcan, hdone⟩ := hact
    rcases Nat.lt_succ_iff_lt_or_eq.mp hlt with h2 | h2
    · exact absurd ⟨h2, hcan, hdone⟩ (hno t)
    · show some s.nextTask = some t
      rw [h2]
  · refine ⟨?_, ?_, ?_, ?_⟩
    · intro t hmem
      exact Nat.lt_succ_of_lt (hc t hmem)
    · intro t hmem
      exact Nat.lt_succ_of_lt (hd t hmem)
    · intro t hreg
      have h2 := Option.some.inj (show some s.nextTask = some t from hreg)
      show t < s.nextTask + 1
      omega
    · intro j t htk
      rcases taskAt_setTask_cases s.insts i s.nextTask j t htk with h2 | h2
      · show t < s.nextTask + 1
        omega
      · exact Nat.lt_succ_of_lt (ht j t h2)

theorem createInstance_false_eq (s : PState) :
    createInstance false s = addInst (takeover s) := rfl

theorem createInstance_true_eq (s : PState) :
    createInstance true s =
      spawnFor (takeover s).insts.length (addInst (takeover s)) := by
  unfold createInstance
  rw [if_pos rfl]
  have hnone : taskAt (addInst (takeover s)).insts (takeover s).insts.length
      = none := by
    show taskAt ((takeover s).insts ++ [{ stopped := false, task := none }])
      (takeover s).insts.length = none
    rw [taskAt_append_self]
  simp only [ensure_monitor_task, hnone]

theorem inv_create (b : Bool) (s : PState) (h : SingletonInv s) :
    SingletonInv (createInstance b s) := by
  obtain ⟨hA, hb⟩ := h
  have hno := no_active_takeover s hA
  have hbt := bounds_takeover s hb
  cases b with
  | true =>
    rw [createInstance_true_eq]
    apply inv_spawnFor
    · intro t hact
      exact hno t ((active_addInst (takeover s) t).mp hact)
    · exact bounds_addInst _ hbt
  | false =>
    rw [createInstance_false_eq]
    constructor
    · intro t hact
      exact absurd ((active_addInst (takeover s) t).mp hact) (hno t)
    · exact bounds_addInst _ hbt

theorem inv_markStopped (i : Nat) (s : PState) (h : SingletonInv s) :
    SingletonInv (markStopped i s) := by
  obtain ⟨hA, hc, hd, hr, ht⟩ := h
  refine ⟨hA, hc, hd, hr, ?_⟩
  intro j t htk
  have htk2 : taskAt (setStopped s.insts i) j = some t := htk
  rw [taskAt_setStopped] at htk2
  exact ht j t htk2

theorem cancelOwn_simple (i : Nat) (s : PState) :
    (cancelOwn i s).regTask = s.regTask ∧
    (cancelOwn i s).regOwner = s.regOwner ∧
    (cancelOwn i s).insts = s.insts ∧
    (cancelOwn i s).nextTask = s.nextTask ∧
    (∀ x ∈ s.doneT, x ∈ (cancelOwn i s).doneT) ∧
    (∀ x ∈ s.cancelledT, x ∈ (cancelOwn i s).cancelledT) ∧
    (∀ x ∈ (cancelOwn i s).cancelledT,
      x ∈ s.cancelledT ∨ taskAt s.insts i = some x) ∧
    (∀ x ∈ (cancelOwn i s).doneT, x ∈ s.doneT ∨ taskAt s.insts i = some x) := by
  rcases htk : taskAt s.insts i with _ | t
  · have he : cancelOwn i s = s := by simp only [cancelOwn, htk]
    rw [he]
    exact ⟨rfl, rfl, rfl, rfl, fun x h => h, fun x h => h,
      fun x h => .inl h, fun x h => .inl h⟩
  · by_cases hd : t ∈ s.doneT
    · have he : cancelOwn i s = s := by
        simp only [cancelOwn, htk]
        rw [if_neg fun hn => hn hd]
      rw [he]
      exact ⟨rfl, rfl, rfl, rfl, fun x h => h, fun x h => h,
        fun x h => .inl h, fun x h => .inl h⟩
    · have he : cancelOwn i s =
          { s with
            cancelledT := t :: s.cancelledT
            doneT := t :: s.doneT } := by
        simp only [cancelOwn, htk]
        rw [if_pos hd]
      rw [he]
      refine ⟨rfl, rfl, rfl, rfl, ?_, ?_, ?_, ?_⟩
      · intro x hx
        exact List.mem_cons_of_mem t hx
      · intro x hx
        exact List.mem_cons_of_mem t hx
      · intro x hx
        rcases List.mem_cons.mp hx with hx | hx
        · exact .inr (by rw [hx])
        · exact .inl hx
      · intro x hx
        rcases List.mem_cons.mp hx with hx | hx
        · exact .inr (by rw [hx])
        · exact .inl hx

theorem cancelOwn_done_of_task (i : Nat) (s : PState) (t : Nat)
    (htk : taskAt s.insts i = some t) : t ∈ (cancelOwn i s).doneT := by
  simp only [cancelOwn, htk]
  by_cases hd : t ∈ s.doneT
  · rw [if_neg fun hn => hn hd]
    exact hd
  · rw [if_pos hd]
    exact List.mem_cons_self _ _

theorem inv_cancelOwn (i : Nat) (s : PState) (h : SingletonInv s) :
    SingletonInv (cancelOwn i s) := by
  obtain ⟨hA, hc, hd, hr, ht⟩ := h
  obtain ⟨hrg, hro, hin, hnx, hdm, hcm, hcc, hdc⟩ := cancelOwn_simple i s
  constructor
  · intro t hact
    obtain ⟨hlt, hcan, hdone⟩ := hact
    rw [hnx] at hlt
    rw [hrg]
    exact hA t ⟨hlt, fun hmem => hcan (hcm t hmem),
      fun hmem => hdone (hdm t hmem)⟩
  · refine ⟨?_, ?_, ?_, ?_⟩
    · intro x hx
      rw [hnx]
      rcases hcc x hx with h2 | h2
      · exact hc x h2
      · exact ht i x h2
    · intro x hx
      rw [hnx]
      rcases hdc x hx with h2 | h2
      · exact hd x h2
      · exact ht i x h2
    · intro x hx
      rw [hnx]
      rw [hrg] at hx
      exact hr x hx
    · intro j x hx
      rw [hnx]
      rw [hin] at hx
      exact ht j x hx

theorem clearIfOwner_cases (i : Nat) (s : PState) :
    (s.regTask = taskAt s.insts i ∧
      clearIfOwner i s = { s with regTask := none, regOwner := none }) ∨
    (s.regTask ≠ taskAt s.insts i ∧ clearIfOwner i s = s) := by
  by_cases hg : s.regTask = taskAt s.insts i
  · exact .inl ⟨hg, by simp only [clearIfOwner]; rw [if_pos hg]⟩
  · exact .inr ⟨hg, by simp only [clearIfOwner]; rw [if_neg hg]⟩

theorem inv_clearIfOwner (i : Nat) (s : PState) (h : SingletonInv s)
    (hdone : ∀ t, taskAt s.insts i = some t → t ∈ s.doneT) :
    SingletonInv (clearIfOwner i s) := by
  obtain ⟨hA, hc, hd, hr, ht⟩ := h
  rcases clearIfOwner_cases i s with ⟨hg, he⟩ | ⟨hg, he⟩
  · rw [he]
    constructor
    · intro t hact
      obtain ⟨hlt, hcan, hdn⟩ := hact
      have hreg := hA t ⟨hlt, hcan, hdn⟩
      rw [hg] at hreg
      exact absurd (hdone t hreg) hdn
    · refine ⟨hc, hd, ?_, ht⟩
      intro t h2
      exact absurd (show (none : Option Nat) = some t from h2) (by simp)
  · rw [he]
    exact ⟨hA, hc, hd, hr, ht⟩

theorem inv_unload (i : Nat) (s : PState) (h : SingletonInv s) :
    SingletonInv (onUnload i s) := by
  unfold onUnload
  apply inv_clearIfOwner
  · exact inv_cancelOwn i _ (inv_markStopped i s h)
  · intro t htk
    have hin : (cancelOwn i (markStopped i s)).insts = (markStopped i s).insts :=
      (cancelOwn_simple i (markStopped i s)).2.2.1
    rw [hin] at htk
    exact cancelOwn_done_of_task i (markStopped i s) t htk

theorem inv_finish (t : Nat) (s : PState) (h : SingletonInv s) :
    SingletonInv (finishTask t s) := by
  obtain ⟨hA, hc, hd, hr, ht⟩ := h
  unfold finishTask
  by_cases hlt : t < s.nextTask
  · rw [if_pos hlt]
    constructor
    · intro x hact
      obtain ⟨h1, h2, h3⟩ := hact
      exact hA x ⟨h1, h2, fun hm => h3 (List.mem_cons_of_mem t hm)⟩
    · refine ⟨hc, ?_, hr, ht⟩
      intro x hx
      rcases List.mem_cons.mp hx with hx | hx
      · rw [hx]
        exact hlt
      · exact hd x hx
  · rw [if_neg hlt]
    exact ⟨hA, hc, hd, hr, ht⟩

theorem inv_apply (e : Event) (s : PState) (h : SingletonInv s) :
    SingletonInv (applyEvent e s) := by
  cases e with
  | create b => exact inv_create b s h
  | unload i => exact inv_unload i s h
  | finish t => exact inv_finish t s h

theorem inv_init : SingletonInv initPState := by
  constructor
  · rintro t ⟨h1, h2, h3⟩
    exact absurd h1 (Nat.not_lt_zero t)
  · refine ⟨?_, ?_, ?_, ?_⟩
    · intro t h
      simp [initPState] at h
    · intro t h
      simp [initPState] at h
    · intro t h
      simp [initPState] at h
    · intro j t h
      simp [initPState, taskAt] at h

theorem inv_run (evs : List Event) : SingletonInv (runEvents evs) := by
  have hgen : ∀ l : List Event, ∀ s, SingletonInv s →
      SingletonInv (l.foldl (fun s e => applyEvent e s) s) := by
    intro l
    induction l with
    | nil => intro s h; exact h
    | cons e rest ih =>
      intro s h
      rw [List.foldl_cons]
      exact ih (applyEvent e s) (inv_apply e s h)
  exact hgen _ initPState inv_init

/-- C8: in every state reachable by instance creations, unloads and task
completions, any live (created, not cancel-requested, not finished) monitor
task is the globally registered one — hence at most one is live at a time;
a creation that finds a registered unfinished task first marks that task's
owner stopped and cancels the task, and (with `auto_check`) then registers
its own fresh task; an unload clears the global registration exactly when
the registration still is that instance's own task, and otherwise leaves
the registration (a newer instance's) untouched. -/
theorem singleton_coordinator_spec :
    (∀ evs : List Event, ∀ t, ActiveTask (runEvents evs) t →
        (runEvents evs).regTask = some t)
  ∧ (∀ evs : List Event, ∀ t1 t2, ActiveTask (runEvents evs) t1 →
        ActiveTask (runEvents evs) t2 → t1 = t2)
  ∧ (∀ s : PState, ∀ b o t, s.regTask = some t → t ∉ s.doneT →
        s.regOwner = some o → o < s.insts.length →
        t ∈ (createInstance b s).cancelledT ∧
        stoppedAt (createInstance b s).insts o = some true)
  ∧ (∀ s : PState, (createInstance true s).regTask = some s.nextTask)
  ∧ (∀ s : PState, ∀ i,
        (s.regTask = taskAt s.insts i →
          (onUnload i s).regTask = none ∧ (onUnload i s).regOwner = none)
      ∧ (s.regTask ≠ taskAt s.insts i →
          (onUnload i s).regTask = s.regTask ∧
          (onUnload i s).regOwner = s.regOwner)) := by
  refine ⟨?_, ?_, ?_, ?_, ?_⟩
  · intro evs t hact
    exact (inv_run evs).1 t hact
  · intro evs t1 t2 h1 h2
    have e1 := (inv_run evs).1 t1 h1
    have e2 := (inv_run evs).1 t2 h2
    rw [e1] at e2
    exact Option.some.inj e2
  · intro s b o t hreg hdone hro hlen
    obtain ⟨hcan, hsets⟩ := takeover_cancels_registered s t hreg hdone
    have hinsts := hsets o hro
    have hbase : stoppedAt (takeover s).insts o = some true := by
      rw [hinsts]
      exact stoppedAt_setStopped_self s.insts o hlen
    have hlen2 : o < (takeover s).insts.length := by
      rw [(takeover_simple s).2.2.2.2.1]
      exact hlen
    constructor
    · cases b with
      | true =>
        rw [createInstance_true_eq]
        exact hcan
      | false =>
        rw [createInstance_false_eq]
        exact hcan
    · cases b with
      | true =>
        rw [createInstance_true_eq]
        simp only [spawnFor, addInst]
        rw [stoppedAt_setTask]
        rw [stoppedAt_append_left _ _ o hlen2]
        exact hbase
      | false =>
        rw [createInstance_false_eq]
        simp only [addInst]
        rw [stoppedAt_append_left _ _ o hlen2]
        exact hbase
  · intro s
    rw [createInstance_true_eq]
    show some (addInst (takeover s)).nextTask = some s.nextTask
    rw [show (addInst (takeover s)).nextTask = s.nextTask from (takeover_simple s).1]
  · intro s i
    have hrg : (cancelOwn i (markStopped i s)).regTask = s.regTask :=
      (cancelOwn_simple i (markStopped i s)).1
    have hro : (cancelOwn i (markStopped i s)).regOwner = s.regOwner :=
      (cancelOwn_simple i (markStopped i s)).2.1
    have hin : (cancelOwn i (markStopped i s)).insts = setStopped s.insts i :=
      (cancelOwn_simple i (markStopped i s)).2.2.1
    constructor
    · intro hg
      have hg2 : (cancelOwn i (markStopped i s)).regTask =
          taskAt (cancelOwn i (markStopped i s)).insts i := by
        rw [hrg, hin, taskAt_setStopped]
        exact hg
      unfold onUnload
      rcases clearIfOwner_cases i (cancelOwn i (markStopped i s)) with
        ⟨_, he⟩ | ⟨hne, he⟩
      · rw [he]
        exact ⟨rfl, rfl⟩
      · exact absurd hg2 hne
    · intro hg
      have hg2 : (cancelOwn i (markStopped i s)).regTask ≠
          taskAt (cancelOwn i (markStopped i s)).insts i := by
        rw [hrg, hin, taskAt_setStopped]
        exact hg
      unfold onUnload
      rcases clearIfOwner_cases i (cancelOwn i (markStopped i s)) with
        ⟨heq, he⟩ | ⟨_, he⟩
      · exact absurd heq hg2
      · rw [he]
        exact ⟨hrg, hro⟩

end ElecMon
